import Mathlib

/-!
Verification development for the a6-tools core: the MIDI SysEx detector, the
7-bit codec, the update-block decoder/reassembler, and the packed boolean
array.  Every definition below is a shallow embedding of the corresponding
Rust item; machine integers are modelled as `Nat` with explicit `% 2^w`
truncation exactly where the Rust types truncate.
-/

set_option maxHeartbeats 1000000
set_option maxRecDepth 10000

/-! ## 7-bit codec (src/sysex.rs, `encode_7bit` / `decode_7bit`)

The Rust functions keep a `u16` shift register `data` and a leftover-bit
counter `bits`, pushing output bytes into a `Vec`.  The loop bodies are
embedded as structural recursion over the input list; the returned list is
the sequence of bytes pushed into `dst`. -/

/-- Loop of `encode_7bit`: for each input octet `v`, inject it at bit
position `bits` (`data |= (v as u16) << bits`, with the `u16` truncation of
the shift), yield `data & 0x7F`, shift right by 7 and bump `bits`; every 7th
iteration yields the 7 accrued leftover bits as an extra septet.  After the
loop, leftover bits (if any) are yielded as one final septet. -/
def encode_7bit_loop : List Nat → Nat → Nat → List Nat
  | [], data, bits => if 0 < bits then [data &&& 0x7F] else []
  | v :: src, data, bits =>
    let data1 := data ||| ((v <<< bits) % 65536)
    let out := data1 &&& 0x7F
    let data2 := data1 >>> 7
    if bits + 1 = 7 then
      out :: (data2 &&& 0x7F) :: encode_7bit_loop src 0 0
    else
      out :: encode_7bit_loop src data2 (bits + 1)

/-- Encodes a sequence of bytes into a sequence of 7-bit values
(`encode_7bit` with an initially empty `dst`). -/
def encode_7bit (src : List Nat) : List Nat :=
  encode_7bit_loop src 0 0

/-- Loop of `decode_7bit`: isolate 7 bits of each input value; with no
leftover bits they become the leftovers, otherwise they are prepended as
most-significant bits and one octet `data & 0xFF` is yielded. -/
def decode_7bit_loop : List Nat → Nat → Nat → List Nat
  | [], _, _ => []
  | s :: src, data, bits =>
    let v := s &&& 0x7F
    if bits = 0 then
      decode_7bit_loop src v 7
    else
      let data1 := data ||| ((v <<< bits) % 65536)
      (data1 &&& 0xFF) :: decode_7bit_loop src (data1 >>> 8) (bits - 1)

/-- Decodes a sequence of 7-bit values into a sequence of bytes
(`decode_7bit` with an initially empty `dst`). -/
def decode_7bit (src : List Nat) : List Nat :=
  decode_7bit_loop src 0 0

/-! ## Arithmetic bridging lemmas -/

/-- Bitwise or with a shifted value is addition when the low `k` bits are
free. -/
theorem lor_shift_eq_add {a : Nat} (b k : Nat) (h : a < 2 ^ k) :
    a ||| (b <<< k) = 2 ^ k * b + a := by
  rw [Nat.shiftLeft_eq, Nat.lor_comm, mul_comm b]
  exact (Nat.mul_add_lt_is_or h b).symm

theorem and_127_eq (x : Nat) : x &&& 127 = x % 128 := by
  have h := Nat.and_pow_two_sub_one_eq_mod x 7
  norm_num at h
  exact h

theorem and_255_eq (x : Nat) : x &&& 255 = x % 256 := by
  have h := Nat.and_pow_two_sub_one_eq_mod x 8
  norm_num at h
  exact h

/-- Dividing `c * w + r` by `c * m` ignores a remainder `r < c`. -/
theorem mul_add_small_div (c w m r : Nat) (hc : 0 < c) (hr : r < c) :
    (c * w + r) / (c * m) = w / m := by
  rw [← Nat.div_div_eq_div_mul, Nat.mul_add_div hc, Nat.div_eq_of_lt hr,
    Nat.add_zero]

/-- Reducing `c * w + r` modulo `c * m` reduces only the `w` part when
`r < c`. -/
theorem mul_add_small_mod (c w m r : Nat) (hm : 0 < m) (hr : r < c) :
    (c * w + r) % (c * m) = c * (w % m) + r := by
  have h1 : w % m < m := Nat.mod_lt w hm
  have h2 : r < c * m := lt_of_lt_of_le hr (Nat.le_mul_of_pos_right c hm)
  have h3 : c * (w % m) + r < c * m := by
    have h4 : c * (w % m + 1) ≤ c * m := Nat.mul_le_mul_left c h1
    have h5 : c * (w % m + 1) = c * (w % m) + c := by ring
    omega
  rw [Nat.add_mod, Nat.mul_mod_mul_left, Nat.mod_eq_of_lt h2,
    Nat.mod_eq_of_lt h3]

/-- Upper bound companion to `mul_add_small_mod`. -/
theorem mul_add_small_lt (c w m r : Nat) (hw : w < m) (hr : r < c) :
    c * w + r < c * m := by
  have h4 : c * (w + 1) ≤ c * m := Nat.mul_le_mul_left c hw
  have h5 : c * (w + 1) = c * w + c := by ring
  omega

/-- Or-with-shift under the `u16` truncation, as addition. -/
theorem lor_shift_mod_eq (a x k : Nat) (ha : a < 2 ^ k) (hx : x * 2 ^ k < 65536) :
    a ||| ((x <<< k) % 65536) = 2 ^ k * x + a := by
  rw [Nat.shiftLeft_eq, Nat.mod_eq_of_lt hx, ← Nat.shiftLeft_eq,
    lor_shift_eq_add x k ha]

/-- Unfolding equation for `encode_7bit_loop` on a cons cell. -/
theorem enc_cons (v : Nat) (src : List Nat) (data bits : Nat) :
    encode_7bit_loop (v :: src) data bits =
      if bits + 1 = 7 then
        ((data ||| ((v <<< bits) % 65536)) &&& 127)
          :: (((data ||| ((v <<< bits) % 65536)) >>> 7) &&& 127)
          :: encode_7bit_loop src 0 0
      else
        ((data ||| ((v <<< bits) % 65536)) &&& 127)
          :: encode_7bit_loop src ((data ||| ((v <<< bits) % 65536)) >>> 7)
              (bits + 1) := rfl

/-- Unfolding equation for `decode_7bit_loop` on a cons cell. -/
theorem dec_cons (s : Nat) (src : List Nat) (data bits : Nat) :
    decode_7bit_loop (s :: src) data bits =
      if bits = 0 then
        decode_7bit_loop src (s &&& 127) 7
      else
        ((data ||| (((s &&& 127) <<< bits) % 65536)) &&& 255)
          :: decode_7bit_loop src
              ((data ||| (((s &&& 127) <<< bits) % 65536)) >>> 8)
              (bits - 1) := rfl

/-- Product of split powers of two below 8 bits. -/
theorem pow_split_seven {e : Nat} (he2 : 2 ≤ e) (he7 : e ≤ 7) :
    2 ^ (8 - e) * 2 ^ (e - 1) = 128 := by
  rw [← pow_add]
  have h : 8 - e + (e - 1) = 7 := by omega
  rw [h]
  norm_num

/-- Product of split powers of two at 8 bits. -/
theorem pow_split_eight {e : Nat} (he7 : e ≤ 8) :
    2 ^ e * 2 ^ (8 - e) = 256 := by
  rw [← pow_add]
  have h : e + (8 - e) = 8 := by omega
  rw [h]
  norm_num

/-- The encoder carry is below `2 ^ (8 - e)` for an 8-bit input. -/
theorem carry_lt {v e : Nat} (hv : v < 256) (he7 : e ≤ 8) :
    v / 2 ^ e < 2 ^ (8 - e) := by
  have h8 : 2 ^ (8 - e) * 2 ^ e = 256 := by
    rw [← pow_add]
    have h : 8 - e + e = 8 := by omega
    rw [h]
    norm_num
  rw [Nat.div_lt_iff_lt_mul (Nat.pos_pow_of_pos e (by omega))]
  omega

example : decode_7bit (encode_7bit
    [0xF1, 0xE2, 0xD3, 0xC4, 0xB5, 0xA6, 0x97, 0x88, 0x79, 0x6A]) =
    [0xF1, 0xE2, 0xD3, 0xC4, 0xB5, 0xA6, 0x97, 0x88, 0x79, 0x6A] := by decide

/-- Bound on the truncated shift of an 8-bit value by `8 - e` bits. -/
theorem shift_bound {w e : Nat} (hw : w < 256) (he2 : 2 ≤ e) :
    w * 2 ^ (8 - e) < 65536 := by
  have h6 : 2 ^ (8 - e) ≤ 64 := by
    have h : 8 - e ≤ 6 := by omega
    calc 2 ^ (8 - e) ≤ 2 ^ 6 := Nat.pow_le_pow_right (by norm_num) h
      _ = 64 := by norm_num
  have := Nat.mul_le_mul (Nat.le_of_lt_succ (by omega : w < 256)) h6
  omega

/-- Joint induction for the 7-bit round trip.  The first conjunct covers
the phase-aligned state (no leftover bits on either side); the second covers
the mid-octet state after some octet `v` was pushed: the encoder holds the
top `8 - e` bits of `v` and the decoder holds the low `e` bits, `2 ≤ e ≤ 7`. -/
theorem roundtrip_aux (src : List Nat) : (∀ x ∈ src, x < 256) →
    (decode_7bit_loop (encode_7bit_loop src 0 0) 0 0 = src) ∧
    (∀ e v, 2 ≤ e → e ≤ 7 → v < 256 →
      decode_7bit_loop (encode_7bit_loop src (v >>> e) (8 - e)) (v % 2 ^ e) e
        = v :: src) := by
  induction src with
  | nil =>
    intro _
    constructor
    · rfl
    · intro e v he2 he7 hv
      have hvs : v >>> e = v / 2 ^ e := Nat.shiftRight_eq_div_pow v e
      have hclt : v / 2 ^ e < 2 ^ (8 - e) := carry_lt hv (by omega)
      have hpe : 0 < 2 ^ e := Nat.pos_pow_of_pos e (by omega)
      have h64 : v / 2 ^ e < 128 := by
        have h6 : 2 ^ (8 - e) ≤ 64 := by
          have h : 8 - e ≤ 6 := by omega
          calc 2 ^ (8 - e) ≤ 2 ^ 6 := Nat.pow_le_pow_right (by norm_num) h
            _ = 64 := by norm_num
        omega
      simp only [encode_7bit_loop]
      rw [if_pos (by omega : 0 < 8 - e)]
      rw [dec_cons, if_neg (by omega : ¬ e = 0)]
      have hand : v >>> e &&& 127 &&& 127 = v / 2 ^ e := by
        rw [hvs, and_127_eq, and_127_eq, Nat.mod_eq_of_lt (Nat.mod_lt _ (by norm_num)),
          Nat.mod_eq_of_lt h64]
      rw [hand]
      have hor : v % 2 ^ e ||| ((v / 2 ^ e) <<< e % 65536) = 2 ^ e * (v / 2 ^ e) + v % 2 ^ e := by
        refine lor_shift_mod_eq _ _ _ (Nat.mod_lt _ hpe) ?_
        have := Nat.div_mul_le_self v (2 ^ e)
        omega
      rw [hor, Nat.div_add_mod v (2 ^ e), and_255_eq, Nat.mod_eq_of_lt hv]
      rfl
  | cons w src ih =>
    intro hall
    have hw : w < 256 := hall w (List.mem_cons_self w src)
    have hall' : ∀ x ∈ src, x < 256 := fun x hx => hall x (List.mem_cons_of_mem w hx)
    obtain ⟨ihA, ihB⟩ := ih hall'
    constructor
    · -- phase-aligned step: first octet w enters an empty register
      rw [enc_cons, if_neg (by omega : ¬ 0 + 1 = 7)]
      have hd1 : (0 : Nat) ||| ((w <<< 0) % 65536) = w := by
        have h := lor_shift_mod_eq 0 w 0 (by norm_num) (by omega)
        simpa using h
      rw [hd1, dec_cons, if_pos rfl]
      have hand : w &&& 127 &&& 127 = w % 2 ^ 7 := by
        rw [and_127_eq, and_127_eq, Nat.mod_eq_of_lt (Nat.mod_lt _ (by norm_num))]
        norm_num
      rw [hand, show (0 : Nat) + 1 = 8 - 7 from rfl]
      exact ihB 7 w (by omega) (by omega) hw
    · -- mid-octet step: octet w enters with carry from v
      intro e v he2 he7 hv
      have hvs : v >>> e = v / 2 ^ e := Nat.shiftRight_eq_div_pow v e
      have hclt : v / 2 ^ e < 2 ^ (8 - e) := carry_lt hv (by omega)
      have hpe : 0 < 2 ^ e := Nat.pos_pow_of_pos e (by omega)
      have hpe1 : 0 < 2 ^ (e - 1) := Nat.pos_pow_of_pos (e - 1) (by omega)
      have hpe8 : 0 < 2 ^ (8 - e) := Nat.pos_pow_of_pos (8 - e) (by omega)
      have hd1 : v >>> e ||| ((w <<< (8 - e)) % 65536)
          = 2 ^ (8 - e) * w + v / 2 ^ e := by
        rw [hvs]
        exact lor_shift_mod_eq _ w (8 - e) hclt (shift_bound hw he2)
      have hout : (2 ^ (8 - e) * w + v / 2 ^ e) &&& 127
          = 2 ^ (8 - e) * (w % 2 ^ (e - 1)) + v / 2 ^ e := by
        rw [and_127_eq, ← pow_split_seven he2 he7,
          mul_add_small_mod _ _ _ _ hpe1 hclt]
      have houtlt : 2 ^ (8 - e) * (w % 2 ^ (e - 1)) + v / 2 ^ e < 128 := by
        rw [← pow_split_seven he2 he7]
        exact mul_add_small_lt _ _ _ _ (Nat.mod_lt _ hpe1) hclt
      have hcarry : (2 ^ (8 - e) * w + v / 2 ^ e) >>> 7 = w / 2 ^ (e - 1) := by
        rw [Nat.shiftRight_eq_div_pow, show (2 : Nat) ^ 7 = 128 from by norm_num,
          ← pow_split_seven he2 he7, mul_add_small_div _ _ _ _ hpe8 hclt]
      have hdataD : ∀ u : Nat, u < 128 →
          v % 2 ^ e ||| ((u &&& 127) <<< e % 65536) = 2 ^ e * u + v % 2 ^ e := by
        intro u hu
        have hu127 : u &&& 127 = u := by
          rw [and_127_eq, Nat.mod_eq_of_lt hu]
        rw [hu127]
        refine lor_shift_mod_eq _ _ _ (Nat.mod_lt _ hpe) ?_
        have h7 : 2 ^ e ≤ 128 := by
          calc 2 ^ e ≤ 2 ^ 7 := Nat.pow_le_pow_right (by norm_num) he7
            _ = 128 := by norm_num
        have := Nat.mul_le_mul (Nat.le_of_lt_succ (by omega : u < 128)) h7
        omega
      have hdval : 2 ^ e * (2 ^ (8 - e) * (w % 2 ^ (e - 1)) + v / 2 ^ e) + v % 2 ^ e
          = 256 * (w % 2 ^ (e - 1)) + v := by
        have h1 : 2 ^ e * (2 ^ (8 - e) * (w % 2 ^ (e - 1)) + v / 2 ^ e) + v % 2 ^ e
            = 2 ^ e * 2 ^ (8 - e) * (w % 2 ^ (e - 1)) + (2 ^ e * (v / 2 ^ e) + v % 2 ^ e) := by
          ring
        rw [h1, pow_split_eight (by omega), Nat.div_add_mod]
      have hemit : (256 * (w % 2 ^ (e - 1)) + v) &&& 255 = v := by
        rw [and_255_eq, Nat.mul_add_mod 256 _ v, Nat.mod_eq_of_lt hv]
      have hnext : (256 * (w % 2 ^ (e - 1)) + v) >>> 8 = w % 2 ^ (e - 1) := by
        rw [Nat.shiftRight_eq_div_pow, show (2 : Nat) ^ 8 = 256 from by norm_num,
          Nat.mul_add_div (by norm_num) _ _, Nat.div_eq_of_lt hv, Nat.add_zero]
      by_cases he : e = 2
      · -- the seventh octet of a cycle: the encoder flushes two septets
        subst he
        rw [enc_cons, if_pos (by norm_num : 8 - 2 + 1 = 7), hd1, hout, hcarry]
        rw [dec_cons, if_neg (by norm_num : ¬ (2 : Nat) = 0)]
        rw [hdataD _ houtlt, hdval, hemit, hnext]
        have hc127 : w / 2 ^ (2 - 1) &&& 127 = w / 2 := by
          simp only [show (2 : Nat) - 1 = 1 from rfl, pow_one]
          rw [and_127_eq, Nat.mod_eq_of_lt (by omega : w / 2 < 128)]
        rw [hc127, dec_cons, if_neg (by norm_num : ¬ (2 : Nat) - 1 = 0)]
        have hd2 : w % 2 ^ (2 - 1) ||| ((w / 2 &&& 127) <<< (2 - 1) % 65536) = w := by
          have h127 : w / 2 &&& 127 = w / 2 := by
            rw [and_127_eq, Nat.mod_eq_of_lt (by omega : w / 2 < 128)]
          rw [h127]
          have h := lor_shift_mod_eq (w % 2 ^ (2 - 1)) (w / 2) (2 - 1)
            (Nat.mod_lt _ (by norm_num))
            (by simp only [show (2 : Nat) - 1 = 1 from rfl, pow_one]; omega)
          rw [h]
          simp only [show (2 : Nat) - 1 = 1 from rfl, pow_one]
          omega
        rw [hd2, and_255_eq, Nat.mod_eq_of_lt hw]
        have hw8 : w >>> 8 = 0 := by
          rw [Nat.shiftRight_eq_div_pow, show (2 : Nat) ^ 8 = 256 from by norm_num]
          exact Nat.div_eq_of_lt hw
        rw [hw8, show (2 : Nat) - 1 - 1 = 0 from rfl, ihA]
      · -- mid-cycle: one septet out, carry shrinks by one bit
        rw [enc_cons, if_neg (by omega : ¬ 8 - e + 1 = 7), hd1, hout, hcarry]
        rw [dec_cons, if_neg (by omega : ¬ e = 0)]
        rw [hdataD _ houtlt, hdval, hemit, hnext]
        have hsh : w / 2 ^ (e - 1) = w >>> (e - 1) := (Nat.shiftRight_eq_div_pow w (e - 1)).symm
        rw [hsh, show 8 - e + 1 = 8 - (e - 1) from by omega]
        exact congrArg (List.cons v) (ihB (e - 1) w (by omega) (by omega) hw)

/-- C4: for every octet sequence X, `decode_7bit (encode_7bit X) = X`. -/
theorem decode_7bit_encode_7bit (X : List Nat) (h : ∀ x ∈ X, x < 256) :
    decode_7bit (encode_7bit X) = X :=
  (roundtrip_aux X h).1

/-- Witness for C4 at the test vector from the repository's own tests. -/
theorem decode_7bit_encode_7bit_witness :
    decode_7bit (encode_7bit
      [0xF1, 0xE2, 0xD3, 0xC4, 0xB5, 0xA6, 0x97, 0x88, 0x79, 0x6A]) =
      [0xF1, 0xE2, 0xD3, 0xC4, 0xB5, 0xA6, 0x97, 0x88, 0x79, 0x6A] :=
  decode_7bit_encode_7bit _ (by decide)

/-! ## Packed boolean array (src/util/bitmap.rs)

The target is 64-bit (`WORD_INDEX_SHIFT = 6`); `usize` words are `Nat`
values kept below `2 ^ 64`.  Fatal out-of-range assertions are not modelled
here; the callers below guard every access. -/

def WORD_INDEX_SHIFT : Nat := 6

def BIT_INDEX_MASK : Nat := (1 <<< WORD_INDEX_SHIFT) - 1

/-- A fixed-length, packed array of `bool` values. -/
structure BoolArray where
  words : List Nat
  len : Nat
deriving DecidableEq

/-- Word index and bit mask for a `BoolArray` index. -/
def split_index (index : Nat) : Nat × Nat :=
  (index >>> WORD_INDEX_SHIFT, 1 <<< (index &&& BIT_INDEX_MASK))

/-- Creates a `BoolArray` with the given length; capacity is
`ceil(len / word_size)` zeroed words. -/
def BoolArray.new (len : Nat) : BoolArray :=
  let cap := match len with
    | 0 => 0
    | n => 1 + ((n - 1) >>> WORD_INDEX_SHIFT)
  { words := List.replicate cap 0, len := len }

/-- Gets the `bool` value at the given `index` (`word & mask != 0`). -/
def BoolArray.get (a : BoolArray) (index : Nat) : Bool :=
  let im := split_index index
  a.words.getD im.1 0 &&& im.2 != 0

/-- Sets the `bool` value at the given `index` to `true`, returning the
updated array and the previous value. -/
def BoolArray.set (a : BoolArray) (index : Nat) : BoolArray × Bool :=
  let im := split_index index
  let word := a.words.getD im.1 0
  ({ a with words := a.words.set im.1 (word ||| im.2) }, word &&& im.2 != 0)

def usize_max : Nat := 2 ^ 64 - 1

/-- Fueled count of trailing zero bits; with fuel 64 this is exactly
`u64::trailing_zeros` (64 on input 0). -/
def ctz_fuel : Nat → Nat → Nat
  | 0, _ => 0
  | fuel + 1, n => if n % 2 = 1 then 0 else ctz_fuel fuel (n / 2) + 1

/-- The `trailing_zeros` primitive on a 64-bit word. -/
def trailing_zeros (n : Nat) : Nat := ctz_fuel 64 n

/-- Loop of `BoolArray::first_false`: scan word at a time; in the first word
that is not all ones, locate the lowest zero bit with `trailing_zeros` of
the inverted word, and clamp the resulting index to `len`. -/
def first_false_from (len : Nat) : List Nat → Nat → Option Nat
  | [], _ => none
  | word :: words, index =>
    if word ≠ usize_max then
      let index1 := index + trailing_zeros (usize_max ^^^ word)
      if index1 < len then some index1 else none
    else first_false_from len words (index + (1 <<< WORD_INDEX_SHIFT))

/-- Returns the index of the first `false` value, or `none` if all values
are `true`. -/
def BoolArray.first_false (a : BoolArray) : Option Nat :=
  first_false_from a.len a.words 0

/-- Structural well-formedness of a `BoolArray`, as established by
`BoolArray::new` and preserved by `set`/`clear`: one word per 64 indices
and every word in `u64` range. -/
def BoolArrayWF (a : BoolArray) : Prop :=
  a.words.length = (a.len + 63) / 64 ∧ ∀ w ∈ a.words, w < 2 ^ 64

instance (a : BoolArray) : Decidable (BoolArrayWF a) := by
  unfold BoolArrayWF
  infer_instance

/-- Bit view of a word list, used to reason about `BoolArray.get`. -/
def word_bit (ws : List Nat) (i : Nat) : Bool :=
  Nat.testBit (ws.getD (i / 64) 0) (i % 64)

theorem and_two_pow_ne_zero (w k : Nat) :
    (w &&& (1 <<< k) != 0) = Nat.testBit w k := by
  have h2 : (2 : Nat) ^ k ≠ 0 := Nat.pos_iff_ne_zero.mp (Nat.pos_pow_of_pos k (by norm_num))
  rw [Nat.one_shiftLeft, Nat.and_two_pow]
  cases h : Nat.testBit w k <;> simp [bne_iff_ne, h2]

theorem get_eq_word_bit (a : BoolArray) (i : Nat) :
    a.get i = word_bit a.words i := by
  unfold BoolArray.get word_bit split_index
  have h1 : i >>> WORD_INDEX_SHIFT = i / 64 := by
    rw [show WORD_INDEX_SHIFT = 6 from rfl, Nat.shiftRight_eq_div_pow]
  have h2 : i &&& BIT_INDEX_MASK = i % 64 := by
    rw [show BIT_INDEX_MASK = 63 from rfl,
      show (63 : Nat) = 2 ^ 6 - 1 from rfl, Nat.and_pow_two_sub_one_eq_mod]
  simp only [h1, h2]
  exact and_two_pow_ne_zero _ _

theorem word_bit_head (w : Nat) (ws : List Nat) {m : Nat} (hm : m < 64) :
    word_bit (w :: ws) m = Nat.testBit w m := by
  unfold word_bit
  rw [Nat.div_eq_of_lt hm, Nat.mod_eq_of_lt hm]
  simp

theorem word_bit_cons (w : Nat) (ws : List Nat) {m : Nat} (hm : 64 ≤ m) :
    word_bit (w :: ws) m = word_bit ws (m - 64) := by
  unfold word_bit
  have h1 : m / 64 = (m - 64) / 64 + 1 := by omega
  have h2 : m % 64 = (m - 64) % 64 := by omega
  rw [h1, h2, List.getD_cons_succ]

/-- Specification of the fueled trailing-zeros primitive: it finds the least
set bit of a nonzero word within its fuel range. -/
theorem ctz_fuel_spec : ∀ fuel n, n ≠ 0 → n < 2 ^ fuel →
    Nat.testBit n (ctz_fuel fuel n) = true ∧
    ∀ j < ctz_fuel fuel n, Nat.testBit n j = false := by
  intro fuel
  induction fuel with
  | zero => intro n h0 h1; norm_num at h1; exact absurd h1 h0
  | succ fuel ih =>
    intro n h0 h1
    by_cases hodd : n % 2 = 1
    · refine ⟨?_, ?_⟩
      · simp [ctz_fuel, hodd, Nat.testBit_zero]
      · intro j hj
        simp [ctz_fuel, hodd] at hj
    · have h2 : n / 2 ≠ 0 := by omega
      have h3 : n / 2 < 2 ^ fuel := by
        have h4 : 2 ^ (fuel + 1) = 2 ^ fuel * 2 := by ring
        omega
      obtain ⟨ha, hb⟩ := ih (n / 2) h2 h3
      simp only [ctz_fuel, if_neg hodd]
      refine ⟨?_, ?_⟩
      · rw [Nat.testBit_add_one]; exact ha
      · intro j hj
        match j with
        | 0 => simp [Nat.testBit_zero, hodd]
        | j + 1 =>
          rw [Nat.testBit_add_one]
          exact hb j (by omega)

/-- On the low 64 bits, xor with `usize_max` is bit complement. -/
theorem testBit_usize_compl {w : Nat} (j : Nat) (hj : j < 64) :
    Nat.testBit (usize_max ^^^ w) j = !Nat.testBit w j := by
  rw [show usize_max = 2 ^ 64 - 1 from rfl, Nat.testBit_xor,
    Nat.testBit_two_pow_sub_one]
  simp [hj]

/-- Correctness of the `first_false` scan loop, relative to the bit view of
the scanned words. -/
theorem first_false_from_spec : ∀ (ws : List Nat) (len base : Nat),
    (∀ w ∈ ws, w < 2 ^ 64) →
    (∀ i, first_false_from len ws base = some i →
      base ≤ i ∧ i < len ∧ word_bit ws (i - base) = false ∧
        ∀ j, base ≤ j → j < i → word_bit ws (j - base) = true) ∧
    (first_false_from len ws base = none →
      ∀ j, base ≤ j → j < len → j < base + 64 * ws.length →
        word_bit ws (j - base) = true) := by
  intro ws
  induction ws with
  | nil =>
    intro len base _
    refine ⟨fun i hi => by simp [first_false_from] at hi, fun _ j h1 h2 h3 => ?_⟩
    simp at h3
    omega
  | cons w ws ih =>
    intro len base hall
    have hw : w < 2 ^ 64 := hall w (List.mem_cons_self w ws)
    have hall' : ∀ x ∈ ws, x < 2 ^ 64 := fun x hx => hall x (List.mem_cons_of_mem w hx)
    by_cases hmax : w = usize_max
    · -- all-ones word: every bit of the head is true, recurse
      have hstep : first_false_from len (w :: ws) base
          = first_false_from len ws (base + 64) := by
        simp [first_false_from, hmax, show (1 <<< WORD_INDEX_SHIFT : Nat) = 64 from rfl]
      have hhead : ∀ m, m < 64 → word_bit (w :: ws) m = true := by
        intro m hm
        rw [word_bit_head w ws hm, hmax,
          show usize_max = 2 ^ 64 - 1 from rfl, Nat.testBit_two_pow_sub_one]
        simp [hm]
      obtain ⟨ihs, ihn⟩ := ih len (base + 64) hall'
      refine ⟨?_, ?_⟩
      · intro i hi
        rw [hstep] at hi
        obtain ⟨h1, h2, h3, h4⟩ := ihs i hi
        refine ⟨by omega, h2, ?_, ?_⟩
        · rw [word_bit_cons w ws (by omega : 64 ≤ i - base),
            show i - base - 64 = i - (base + 64) from by omega]
          exact h3
        · intro j hj1 hj2
          by_cases hj64 : j - base < 64
          · exact hhead (j - base) hj64
          · rw [word_bit_cons w ws (by omega : 64 ≤ j - base),
              show j - base - 64 = j - (base + 64) from by omega]
            exact h4 j (by omega) hj2
      · intro hn j h1 h2 h3
        rw [hstep] at hn
        by_cases hj64 : j - base < 64
        · exact hhead (j - base) hj64
        · rw [word_bit_cons w ws (by omega : 64 ≤ j - base),
            show j - base - 64 = j - (base + 64) from by omega]
          exact ihn hn j (by omega) h2 (by simp at h3 ⊢; omega)
    · -- a zero bit exists in the head word
      have hxne : usize_max ^^^ w ≠ 0 := by
        rw [Ne, Nat.xor_eq_zero]
        exact fun h => hmax h.symm
      have hxlt : usize_max ^^^ w < 2 ^ 64 :=
        Nat.xor_lt_two_pow (by norm_num [usize_max]) hw
      have hspec := ctz_fuel_spec 64 (usize_max ^^^ w) hxne hxlt
      have ht1 : Nat.testBit (usize_max ^^^ w) (trailing_zeros (usize_max ^^^ w)) = true :=
        hspec.1
      have ht2 : ∀ j, j < trailing_zeros (usize_max ^^^ w) →
          Nat.testBit (usize_max ^^^ w) j = false := fun j hj => hspec.2 j hj
      have ht64 : trailing_zeros (usize_max ^^^ w) < 64 := by
        by_contra hc
        rw [Nat.testBit_lt_two_pow
          (lt_of_lt_of_le hxlt (Nat.pow_le_pow_right (by norm_num) (by omega)))] at ht1
        exact Bool.noConfusion ht1
      have hbitt : Nat.testBit w (trailing_zeros (usize_max ^^^ w)) = false := by
        have h := testBit_usize_compl (w := w) _ ht64
        rw [ht1] at h
        cases hb : Nat.testBit w (trailing_zeros (usize_max ^^^ w))
        · rfl
        · rw [hb] at h; exact Bool.noConfusion h
      have hbitj : ∀ j, j < trailing_zeros (usize_max ^^^ w) →
          Nat.testBit w j = true := by
        intro j hj
        have h := testBit_usize_compl (w := w) j (by omega)
        rw [ht2 j hj] at h
        cases hb : Nat.testBit w j
        · rw [hb] at h; exact Bool.noConfusion h.symm
        · rfl
      have hstep : first_false_from len (w :: ws) base
          = if base + trailing_zeros (usize_max ^^^ w) < len
            then some (base + trailing_zeros (usize_max ^^^ w)) else none := by
        simp [first_false_from, hmax, trailing_zeros]
      refine ⟨?_, ?_⟩
      · intro i hi
        rw [hstep] at hi
        by_cases hlt : base + trailing_zeros (usize_max ^^^ w) < len
        · rw [if_pos hlt] at hi
          obtain rfl : base + trailing_zeros (usize_max ^^^ w) = i := by
            injection hi
          refine ⟨by omega, hlt, ?_, ?_⟩
          · rw [show base + trailing_zeros (usize_max ^^^ w) - base
                = trailing_zeros (usize_max ^^^ w) from by omega,
              word_bit_head w ws ht64]
            exact hbitt
          · intro j hj1 hj2
            rw [word_bit_head w ws (by omega : j - base < 64)]
            exact hbitj (j - base) (by omega)
        · rw [if_neg hlt] at hi
          exact Option.noConfusion hi
      · intro hn j h1 h2 h3
        rw [hstep] at hn
        by_cases hlt : base + trailing_zeros (usize_max ^^^ w) < len
        · rw [if_pos hlt] at hn; exact Option.noConfusion hn
        · rw [word_bit_head w ws (by omega : j - base < 64)]
          exact hbitj (j - base) (by omega)

/-- Characterization of `BoolArray.first_false` on well-formed arrays. -/
theorem BoolArray.first_false_spec (a : BoolArray) (hWF : BoolArrayWF a) :
    (∀ i, a.first_false = some i →
      i < a.len ∧ a.get i = false ∧ ∀ j, j < i → a.get j = true) ∧
    (a.first_false = none → ∀ j, j < a.len → a.get j = true) := by
  obtain ⟨hlen, hwords⟩ := hWF
  obtain ⟨hs, hn⟩ := first_false_from_spec a.words a.len 0 hwords
  constructor
  · intro i hi
    obtain ⟨_, h2, h3, h4⟩ := hs i hi
    refine ⟨h2, ?_, ?_⟩
    · rw [get_eq_word_bit]
      simpa using h3
    · intro j hj
      rw [get_eq_word_bit]
      simpa using h4 j (Nat.zero_le j) hj
  · intro hni j hj
    rw [get_eq_word_bit]
    have hcov : a.len ≤ 64 * a.words.length := by
      rw [hlen]; omega
    simpa using hn hni j (Nat.zero_le j) hj (by omega)

/-- C6: `first_false` returns `some i` iff some index below `len` holds
`false`, and `i` is then the least such index; in particular padding bits in
the final word beyond `len` never cause a `some` result or a wrong index. -/
theorem first_false_correct (a : BoolArray) (hWF : BoolArrayWF a) :
    ((a.first_false).isSome ↔ ∃ j, j < a.len ∧ a.get j = false) ∧
    ∀ i, a.first_false = some i →
      i < a.len ∧ a.get i = false ∧ ∀ j, j < i → a.get j = true := by
  obtain ⟨hs, hn⟩ := BoolArray.first_false_spec a hWF
  refine ⟨⟨?_, ?_⟩, hs⟩
  · intro h
    cases hff : a.first_false with
    | none => rw [hff] at h; exact absurd h (by simp)
    | some i => exact ⟨i, (hs i hff).1, (hs i hff).2.1⟩
  · rintro ⟨j, hj1, hj2⟩
    cases hff : a.first_false with
    | none =>
      rw [hn hff j hj1] at hj2
      exact absurd hj2 (by simp)
    | some i => simp

/-- Witness for C6 on the concrete array `[true, false, true]` packed into
one word. -/
theorem first_false_correct_witness :
    (BoolArray.first_false ⟨[5], 3⟩).isSome ∧ BoolArray.get ⟨[5], 3⟩ 1 = false :=
  ⟨((first_false_correct ⟨[5], 3⟩ (by decide)).1).mpr ⟨1, by decide, by decide⟩,
    by decide⟩

theorem range_find?_none (n : Nat) (p : Nat → Bool) (h : ∀ j, j < n → p j = false) :
    (List.range n).find? p = none := by
  rw [List.find?_eq_none]
  intro x hx
  rw [List.mem_range] at hx
  simp [h x hx]

theorem range_find?_some : ∀ (i : Nat) (p : Nat → Bool) (n : Nat), i < n →
    p i = true → (∀ j, j < i → p j = false) →
    (List.range n).find? p = some i := by
  intro i
  induction i with
  | zero =>
    intro p n hn hp _
    obtain ⟨m, rfl⟩ : ∃ m, n = m + 1 := ⟨n - 1, by omega⟩
    rw [List.range_succ_eq_map, List.find?_cons_of_pos _ hp]
  | succ i ih =>
    intro p n hn hp hlt
    obtain ⟨m, rfl⟩ : ∃ m, n = m + 1 := ⟨n - 1, by omega⟩
    rw [List.range_succ_eq_map,
      List.find?_cons_of_neg _ (by simp [hlt 0 (by omega)]), List.find?_map]
    have h := ih (p ∘ Nat.succ) m (by omega) (by simpa using hp)
      (fun j hj => by simpa using hlt (j + 1) (by omega))
    rw [h]
    rfl

/-- On a well-formed array, the word-at-a-time scan agrees with a plain
left-to-right search for the first `false` entry. -/
theorem first_false_eq_range_find? (a : BoolArray) (hWF : BoolArrayWF a) :
    a.first_false = (List.range a.len).find? (fun i => !a.get i) := by
  obtain ⟨hs, hn⟩ := BoolArray.first_false_spec a hWF
  cases hff : a.first_false with
  | none =>
    exact (range_find?_none _ _ fun j hj => by simp [hn hff j hj]).symm
  | some i =>
    obtain ⟨h1, h2, h3⟩ := hs i hff
    exact (range_find?_some i _ _ h1 (by simp [h2]) (fun j hj => by simp [h3 j hj])).symm

/-! ## Block decoder (src/a6/update.rs)

Handlers return `Result<(), ()>`: `true` below models `Ok(())` (continue)
and `false` models `Err(())` (stop).  Each embedded operation additionally
returns the list of events it reported to the handler, in order. -/

def BLOCK_HEAD_LEN : Nat := 16

def BLOCK_DATA_LEN : Nat := 256

def BLOCK_DIV_SHIFT : Nat := 8

def IMAGE_MAX_BYTES : Nat := 2 * 1024 * 1024

/-- Metadata describing a bootloader/OS update block. -/
structure BlockHeader where
  version : Nat
  checksum : Nat
  length : Nat
  block_count : Nat
  block_index : Nat
deriving DecidableEq

/-- A portion of an OS/bootloader update image. -/
structure Block where
  header : BlockHeader
  data : List Nat
deriving DecidableEq

/-- Error conditions reportable by `BlockDecoder`. -/
inductive BlockDecoderError where
  | InvalidBlockLength (actual : Nat)
  | InvalidImageLength (actual : Nat)
  | InvalidBlockIndex (actual max : Nat)
  | InvalidBlockCount (actual expected : Nat)
  | InconsistentVersion (actual expected index : Nat)
  | InconsistentChecksum (actual expected index : Nat)
  | InconsistentImageLength (actual expected index : Nat)
  | InconsistentBlockCount (actual expected index : Nat)
  | ChecksumMismatch (actual expected : Nat)
  | DuplicateBlock (index : Nat)
  | MissingBlock (index : Nat)
deriving DecidableEq

/-- Handler for block-decoder events. -/
def BlockHandler := BlockDecoderError → Bool

/-- Big-endian `u16` from two bytes (`read_u16` in src/io.rs). -/
def read_be16 (b0 b1 : Nat) : Nat := b0 * 256 + b1

/-- Big-endian `u32` from four bytes (`read_u32` in src/io.rs). -/
def read_be32 (b0 b1 b2 b3 : Nat) : Nat :=
  ((b0 * 256 + b1) * 256 + b2) * 256 + b3

/-- Header and data of an exactly-block-sized byte sequence; fields are
parsed big-endian, the data is the remainder after the 16 header bytes. -/
def parse_block (bytes : List Nat) : Block :=
  { header :=
    { version := read_be32 (bytes.getD 0 0) (bytes.getD 1 0) (bytes.getD 2 0) (bytes.getD 3 0)
      checksum := read_be32 (bytes.getD 4 0) (bytes.getD 5 0) (bytes.getD 6 0) (bytes.getD 7 0)
      length := read_be32 (bytes.getD 8 0) (bytes.getD 9 0) (bytes.getD 10 0) (bytes.getD 11 0)
      block_count := read_be16 (bytes.getD 12 0) (bytes.getD 13 0)
      block_index := read_be16 (bytes.getD 14 0) (bytes.getD 15 0) }
    data := bytes.drop BLOCK_HEAD_LEN }

/-- Embedding of `Block::from_bytes`: exactly 272 bytes parse cleanly; a wrong length
reports `InvalidBlockLength` and then either aborts (`Except.error false`,
the handler said stop), rejects recoverably (`Except.error true`, too few
bytes), or truncates and parses (too many bytes, handler said continue). -/
def Block.from_bytes (bytes : List Nat) (h : BlockHandler) :
    List BlockDecoderError × Except Bool Block :=
  if bytes.length ≠ BLOCK_HEAD_LEN + BLOCK_DATA_LEN then
    let e := BlockDecoderError.InvalidBlockLength bytes.length
    if h e = false then ([e], Except.error false)
    else if bytes.length < BLOCK_HEAD_LEN + BLOCK_DATA_LEN then
      ([e], Except.error true)
    else
      ([e], Except.ok (parse_block (bytes.take (BLOCK_HEAD_LEN + BLOCK_DATA_LEN))))
  else ([], Except.ok (parse_block bytes))

/-- Ceiling of `len` divided by `BLOCK_DATA_LEN`, with the source's `u16`
cast of the shifted value and `u16` addition. -/
def block_count_for (len : Nat) : Nat :=
  match len with
  | 0 => 0
  | n => (1 + ((n - 1) >>> BLOCK_DIV_SHIFT) % 65536) % 65536

/-- Embedding of `BlockHeader::check_len`: validates image length and block count of a
first block.  The handler is invoked (events are recorded) but its result is
dropped by the source; a failed check always yields `false` (`Err(())`). -/
def BlockHeader.check_len (hd : BlockHeader) (_h : BlockHandler) :
    List BlockDecoderError × Bool :=
  if hd.length > IMAGE_MAX_BYTES then
    ([BlockDecoderError.InvalidImageLength hd.length], false)
  else if hd.block_count ≠ block_count_for hd.length then
    ([BlockDecoderError.InvalidBlockCount hd.block_count (block_count_for hd.length)],
      false)
  else ([], true)

/-- Sequential field checks of `check_match`: each failing check reports its
event; a stop from the handler returns early, otherwise the remaining
fields are still checked and the overall result is `Err` (`false`). -/
def run_checks (h : BlockHandler) : List (Bool × BlockDecoderError) →
    List BlockDecoderError × Bool
  | [] => ([], true)
  | (cond, e) :: rest =>
    if cond then
      if h e = false then ([e], false)
      else
        let r := run_checks h rest
        (e :: r.1, false)
    else run_checks h rest

/-- Embedding of `BlockHeader::check_match`: compares all four shared fields against the
reference header, in field order. -/
def BlockHeader.check_match (hd other : BlockHeader) (h : BlockHandler) :
    List BlockDecoderError × Bool :=
  run_checks h
    [(hd.version != other.version,
        BlockDecoderError.InconsistentVersion hd.version other.version hd.block_index),
     (hd.checksum != other.checksum,
        BlockDecoderError.InconsistentChecksum hd.checksum other.checksum hd.block_index),
     (hd.length != other.length,
        BlockDecoderError.InconsistentImageLength hd.length other.length hd.block_index),
     (hd.block_count != other.block_count,
        BlockDecoderError.InconsistentBlockCount hd.block_count other.block_count hd.block_index)]

/-- Embedding of `BlockHeader::check_block_index`: reports `InvalidBlockIndex` (with
saturating `max`) for an out-of-range index but always returns `Ok(())`. -/
def BlockHeader.check_block_index (hd : BlockHeader) (_h : BlockHandler) :
    List BlockDecoderError × Bool :=
  if hd.block_index ≥ hd.block_count then
    ([BlockDecoderError.InvalidBlockIndex hd.block_index (hd.block_count - 1)], true)
  else ([], true)

/-- Wrapping 32-bit additive checksum of a byte sequence. -/
def checksum (bytes : List Nat) : Nat :=
  bytes.foldl (fun sum b => (sum + b) % 4294967296) 0

/-- Reassembly state, created from the first accepted block's header. -/
structure BlockDecoderState where
  header : BlockHeader
  blocks_done : BoolArray
  image : List Nat
deriving DecidableEq

/-- Embedding of `BlockDecoderState::new`: a cleared done-map of `block_count` bits and a
zeroed image buffer of `block_count << 8` bytes. -/
def BlockDecoderState.new (header : BlockHeader) : BlockDecoderState :=
  { header := header
    blocks_done := BoolArray.new header.block_count
    image := List.replicate (header.block_count <<< BLOCK_DIV_SHIFT) 0 }

/-- Byte range of block `index` within the image buffer. -/
def block_range (index : Nat) : Nat × Nat :=
  (index <<< BLOCK_DIV_SHIFT, index <<< BLOCK_DIV_SHIFT + BLOCK_DATA_LEN)

/-- The decoded image slice `image[.. length]`. -/
def BlockDecoderState.image_slice (s : BlockDecoderState) : List Nat :=
  s.image.take s.header.length

/-- First missing block index (`first_false` with the `u16` cast). -/
def BlockDecoderState.first_missing_block (s : BlockDecoderState) : Option Nat :=
  (s.blocks_done.first_false).map (fun v => v % 65536)

/-- Embedding of `BlockDecoderState::write_block`: copies `data` over
`image[block_range(index)]` and sets the done bit, returning the bit's
previous value.  `none` models the panic when the slice range or the bit
index is out of bounds. -/
def BlockDecoderState.write_block (s : BlockDecoderState) (index : Nat)
    (data : List Nat) : Option (BlockDecoderState × Bool) :=
  let r := block_range index
  if r.2 ≤ s.image.length ∧ data.length = BLOCK_DATA_LEN ∧ index < s.blocks_done.len then
    let sb := s.blocks_done.set index
    some ({ s with
      image := s.image.take r.1 ++ data ++ s.image.drop r.2
      blocks_done := sb.1 }, sb.2)
  else none

/-- Constructs a binary image from A6 OS/bootloader update blocks. -/
structure BlockDecoder where
  state : Option BlockDecoderState
  capacity : Nat
deriving DecidableEq

/-- Outcome of one `decode_block` call: `Ok(())`, `Err(())`, or a panic from
an out-of-bounds write. -/
inductive DecodeOutcome where
  | ok
  | aborted
  | panicked
deriving DecidableEq

/-- Embedding of `BlockDecoder::new`; `none` models the fatal capacity assertion. -/
def BlockDecoder.new (capacity : Nat) : Option BlockDecoder :=
  if capacity > IMAGE_MAX_BYTES then none
  else some { state := none, capacity := capacity }

/-- Embedding of `BlockDecoder::decode_block`: read the block, validate its header
(`check_len` for a first block, `check_match` against the stored reference
otherwise), then write its data and report duplicates. -/
def BlockDecoder.decode_block (d : BlockDecoder) (h : BlockHandler)
    (bytes : List Nat) : BlockDecoder × List BlockDecoderError × DecodeOutcome :=
  match Block.from_bytes bytes h with
  | (evs, Except.error true) => (d, evs, DecodeOutcome.ok)
  | (evs, Except.error false) => (d, evs, DecodeOutcome.aborted)
  | (evs, Except.ok block) =>
    match d.state with
    | none =>
      let cl := block.header.check_len h
      if cl.2 = false then (d, evs ++ cl.1, DecodeOutcome.aborted)
      else
        let st := BlockDecoderState.new block.header
        match st.write_block block.header.block_index block.data with
        | none => ({ d with state := some st }, evs ++ cl.1, DecodeOutcome.panicked)
        | some (st1, dup) =>
          if dup then
            let e := BlockDecoderError.DuplicateBlock block.header.block_index
            ({ d with state := some st1 }, evs ++ cl.1 ++ [e],
              if h e = false then DecodeOutcome.aborted else DecodeOutcome.ok)
          else ({ d with state := some st1 }, evs ++ cl.1, DecodeOutcome.ok)
    | some st =>
      let cm := block.header.check_match st.header h
      if cm.2 = false then (d, evs ++ cm.1, DecodeOutcome.aborted)
      else
        match st.write_block block.header.block_index block.data with
        | none => (d, evs ++ cm.1, DecodeOutcome.panicked)
        | some (st1, dup) =>
          if dup then
            let e := BlockDecoderError.DuplicateBlock block.header.block_index
            ({ d with state := some st1 }, evs ++ cm.1 ++ [e],
              if h e = false then DecodeOutcome.aborted else DecodeOutcome.ok)
          else ({ d with state := some st1 }, evs ++ cm.1, DecodeOutcome.ok)

/-- Result of `BlockDecoder::image`. -/
inductive ImageResult where
  | ok (bytes : List Nat)
  | aborted
deriving DecidableEq

/-- Embedding of `BlockDecoder::image`: with no state, report `MissingBlock 0` and return
an empty slice; otherwise report the first missing block (if any) and a
checksum mismatch (if any), and return `image[.. length]` regardless. -/
def BlockDecoder.image (d : BlockDecoder) (h : BlockHandler) :
    List BlockDecoderError × ImageResult :=
  match d.state with
  | none =>
    let e := BlockDecoderError.MissingBlock 0
    if h e = false then ([e], ImageResult.aborted)
    else ([e], ImageResult.ok [])
  | some st =>
    let me : List BlockDecoderError × Bool :=
      match st.first_missing_block with
      | some n =>
        let e := BlockDecoderError.MissingBlock n
        ([e], !h e)
      | none => ([], false)
    if me.2 then (me.1, ImageResult.aborted)
    else
      let img := st.image_slice
      let sum := checksum img
      if sum ≠ st.header.checksum then
        let e := BlockDecoderError.ChecksumMismatch sum st.header.checksum
        if h e = false then (me.1 ++ [e], ImageResult.aborted)
        else (me.1 ++ [e], ImageResult.ok img)
      else (me.1, ImageResult.ok img)

/-- C9: `block_count_for` is the ceiling of division by 256 on the whole
interval `[0, 2^20]`; in particular `block_count_for 0 = 0`. -/
theorem block_count_for_correct (len : Nat) (h : len ≤ 2 ^ 20) :
    block_count_for len = (len + 255) / 256 := by
  have h20 : (2 : Nat) ^ 20 = 1048576 := by norm_num
  rw [h20] at h
  cases len with
  | zero => rfl
  | succ n =>
    simp only [block_count_for]
    rw [Nat.shiftRight_eq_div_pow, show (2 : Nat) ^ BLOCK_DIV_SHIFT = 256 from rfl]
    omega

/-- Witness for C9 at the length used by the repository's own tests. -/
theorem block_count_for_correct_witness :
    block_count_for 1000 = (1000 + 255) / 256 :=
  block_count_for_correct 1000 (by norm_num)

/-- A 272-byte block whose header claims an image length of 2 MiB + 1. -/
def c8_bytes : List Nat :=
  List.replicate 8 0 ++ [0, 32, 0, 1] ++ List.replicate 4 0 ++ List.replicate 256 0

/-- Counterexample to C8 as stated: the first block's header fails
validation (image length 2097153 > 2 MiB), the handler answers continue for
the emitted `InvalidImageLength`, yet `decode_block` still returns the abort
result `Err(())` — the handler's signal does not decide continuation here. -/
theorem decode_block_continue_still_aborts :
    (BlockDecoder.decode_block ⟨none, IMAGE_MAX_BYTES⟩ (fun _ => true) c8_bytes).2.1
        = [BlockDecoderError.InvalidImageLength 2097153] ∧
    (BlockDecoder.decode_block ⟨none, IMAGE_MAX_BYTES⟩ (fun _ => true) c8_bytes).2.2
        = DecodeOutcome.aborted := by
  constructor
  · rfl
  · rfl

theorem from_bytes_exact {bytes : List Nat} (h : BlockHandler)
    (hlen : bytes.length = BLOCK_HEAD_LEN + BLOCK_DATA_LEN) :
    Block.from_bytes bytes h = ([], Except.ok (parse_block bytes)) := by
  unfold Block.from_bytes
  rw [if_neg (by omega : ¬ bytes.length ≠ BLOCK_HEAD_LEN + BLOCK_DATA_LEN)]

/-- C8 amended: when a first block's header fails `check_len`, the
corresponding event (`InvalidImageLength`, or else `InvalidBlockCount`) is
emitted and the block is rejected with the decoder state unchanged, but
`decode_block` returns the abort result for every handler: the handler's
returned signal is ignored for these two events. -/
theorem decode_block_check_len_fail (d : BlockDecoder) (h : BlockHandler)
    (bytes : List Nat) (hst : d.state = none)
    (hlen : bytes.length = BLOCK_HEAD_LEN + BLOCK_DATA_LEN)
    (hfail : (parse_block bytes).header.length > IMAGE_MAX_BYTES ∨
      (parse_block bytes).header.block_count
        ≠ block_count_for (parse_block bytes).header.length) :
    d.decode_block h bytes =
      (d,
        if (parse_block bytes).header.length > IMAGE_MAX_BYTES then
          [BlockDecoderError.InvalidImageLength (parse_block bytes).header.length]
        else
          [BlockDecoderError.InvalidBlockCount (parse_block bytes).header.block_count
            (block_count_for (parse_block bytes).header.length)],
        DecodeOutcome.aborted) := by
  unfold BlockDecoder.decode_block
  rw [from_bytes_exact h hlen, hst]
  by_cases hbig : (parse_block bytes).header.length > IMAGE_MAX_BYTES
  · have hcl : (parse_block bytes).header.check_len h =
        ([BlockDecoderError.InvalidImageLength (parse_block bytes).header.length], false) := by
      unfold BlockHeader.check_len
      rw [if_pos hbig]
    simp [hcl, hbig]
  · have hcount : (parse_block bytes).header.block_count
        ≠ block_count_for (parse_block bytes).header.length := by
      rcases hfail with hf | hf
      · exact absurd hf hbig
      · exact hf
    have hcl : (parse_block bytes).header.check_len h =
        ([BlockDecoderError.InvalidBlockCount (parse_block bytes).header.block_count
          (block_count_for (parse_block bytes).header.length)], false) := by
      unfold BlockHeader.check_len
      rw [if_neg hbig, if_pos hcount]
    simp [hcl, hbig]

/-- Witness for the amended C8 at the concrete 2 MiB + 1 block, with a
handler that answers stop — the result is the same abort. -/
theorem decode_block_check_len_fail_witness :
    BlockDecoder.decode_block ⟨none, IMAGE_MAX_BYTES⟩ (fun _ => false) c8_bytes =
      (⟨none, IMAGE_MAX_BYTES⟩,
        [BlockDecoderError.InvalidImageLength 2097153], DecodeOutcome.aborted) := by
  have h := decode_block_check_len_fail ⟨none, IMAGE_MAX_BYTES⟩ (fun _ => false)
    c8_bytes rfl (by decide) (Or.inl (by decide))
  rw [h]
  rfl

theorem from_bytes_ok_shape (bytes : List Nat) (h : BlockHandler)
    (evs : List BlockDecoderError) (block : Block)
    (hfb : Block.from_bytes bytes h = (evs, Except.ok block)) :
    block = parse_block (bytes.take (BLOCK_HEAD_LEN + BLOCK_DATA_LEN)) ∧
      BLOCK_HEAD_LEN + BLOCK_DATA_LEN ≤ bytes.length := by
  unfold Block.from_bytes at hfb
  by_cases h1 : bytes.length ≠ BLOCK_HEAD_LEN + BLOCK_DATA_LEN
  · rw [if_pos h1] at hfb
    by_cases hh : h (BlockDecoderError.InvalidBlockLength bytes.length) = false
    · rw [if_pos hh] at hfb
      simp at hfb
    · rw [if_neg hh] at hfb
      by_cases h3 : bytes.length < BLOCK_HEAD_LEN + BLOCK_DATA_LEN
      · rw [if_pos h3] at hfb
        simp at hfb
      · rw [if_neg h3] at hfb
        simp only [Prod.mk.injEq, Except.ok.injEq] at hfb
        exact ⟨hfb.2.symm, by omega⟩
  · rw [if_neg h1] at hfb
    simp only [Prod.mk.injEq, Except.ok.injEq] at hfb
    constructor
    · rw [← hfb.2, List.take_of_length_le (by omega)]
    · omega

theorem run_checks_any_false (h : BlockHandler) :
    ∀ checks : List (Bool × BlockDecoderError), (∃ c ∈ checks, c.1 = true) →
    (run_checks h checks).2 = false := by
  intro checks
  induction checks with
  | nil =>
    rintro ⟨c, hc, _⟩
    exact absurd hc (List.not_mem_nil c)
  | cons p rest ih =>
    rintro ⟨c, hc, hct⟩
    obtain ⟨cond, e⟩ := p
    unfold run_checks
    by_cases hcond : cond = true
    · rw [if_pos hcond]
      by_cases hh : h e = false
      · rw [if_pos hh]
      · rw [if_neg hh]
    · rw [if_neg hcond]
      rcases List.mem_cons.mp hc with rfl | hmem
      · exact absurd hct hcond
      · exact ih ⟨c, hmem, hct⟩

/-- C10: whenever `decode_block` rejects a block — input shorter than 272
bytes, first-block `check_len` failure, or a field mismatch against the
reference header — the decoder state is unchanged, for every handler. -/
theorem decode_block_reject_state_unchanged (d : BlockDecoder) (h : BlockHandler)
    (bytes : List Nat)
    (hrej : bytes.length < BLOCK_HEAD_LEN + BLOCK_DATA_LEN ∨
      (d.state = none ∧
        ((parse_block (bytes.take (BLOCK_HEAD_LEN + BLOCK_DATA_LEN))).header.length
            > IMAGE_MAX_BYTES ∨
          (parse_block (bytes.take (BLOCK_HEAD_LEN + BLOCK_DATA_LEN))).header.block_count
            ≠ block_count_for
              (parse_block (bytes.take (BLOCK_HEAD_LEN + BLOCK_DATA_LEN))).header.length)) ∨
      (∃ st, d.state = some st ∧
        ((parse_block (bytes.take (BLOCK_HEAD_LEN + BLOCK_DATA_LEN))).header.version
            ≠ st.header.version ∨
          (parse_block (bytes.take (BLOCK_HEAD_LEN + BLOCK_DATA_LEN))).header.checksum
            ≠ st.header.checksum ∨
          (parse_block (bytes.take (BLOCK_HEAD_LEN + BLOCK_DATA_LEN))).header.length
            ≠ st.header.length ∨
          (parse_block (bytes.take (BLOCK_HEAD_LEN + BLOCK_DATA_LEN))).header.block_count
            ≠ st.header.block_count))) :
    (d.decode_block h bytes).1 = d := by
  rcases hfb : Block.from_bytes bytes h with ⟨evs, res⟩
  cases res with
  | error b =>
    unfold BlockDecoder.decode_block
    rw [hfb]
    cases b <;> rfl
  | ok block =>
    obtain ⟨hblock, hge⟩ := from_bytes_ok_shape bytes h evs block hfb
    unfold BlockDecoder.decode_block
    rw [hfb]
    rcases hrej with hshort | ⟨hst, hfail⟩ | ⟨st, hst, hmis⟩
    · omega
    · rw [hst]
      have hcl : (block.header.check_len h).2 = false := by
        rw [hblock]
        unfold BlockHeader.check_len
        rcases hfail with hf | hf
        · rw [if_pos hf]
        · by_cases hbig : (parse_block (bytes.take (BLOCK_HEAD_LEN + BLOCK_DATA_LEN))).header.length
              > IMAGE_MAX_BYTES
          · rw [if_pos hbig]
          · rw [if_neg hbig, if_pos hf]
      simp [hcl]
    · rw [hst]
      have hcm : (block.header.check_match st.header h).2 = false := by
        rw [hblock]
        unfold BlockHeader.check_match
        apply run_checks_any_false
        rcases hmis with hf | hf | hf | hf
        · exact ⟨_, List.mem_cons_self _ _, bne_iff_ne.mpr hf⟩
        · exact ⟨_, List.mem_cons_of_mem _ (List.mem_cons_self _ _), bne_iff_ne.mpr hf⟩
        · exact ⟨_, List.mem_cons_of_mem _ (List.mem_cons_of_mem _ (List.mem_cons_self _ _)),
            bne_iff_ne.mpr hf⟩
        · exact ⟨_, List.mem_cons_of_mem _ (List.mem_cons_of_mem _ (List.mem_cons_of_mem _
            (List.mem_cons_self _ _))), bne_iff_ne.mpr hf⟩
      simp [hcm]

/-- Witness for C10: an empty input is rejected and the fresh decoder state
is unchanged. -/
theorem decode_block_reject_state_unchanged_witness :
    (BlockDecoder.decode_block ⟨none, IMAGE_MAX_BYTES⟩ (fun _ => true) []).1
      = ⟨none, IMAGE_MAX_BYTES⟩ :=
  decode_block_reject_state_unchanged ⟨none, IMAGE_MAX_BYTES⟩ (fun _ => true) []
    (Or.inl (by decide))

/-- A 272-byte block: length 1000, block_count 4, block_index 4 (one past the
valid maximum 3), zero data. -/
def c5_bytes : List Nat :=
  List.replicate 8 0 ++ [0, 0, 3, 232] ++ [0, 4, 0, 4] ++ List.replicate 256 0

/-- C5 evaluation: on a well-formed block whose `block_index` equals
`block_count`, `decode_block` emits no `InvalidBlockIndex` (the check is
never invoked) and panics on the out-of-bounds image write instead of
rejecting the block. -/
theorem decode_block_oob_index_panics :
    (BlockDecoder.decode_block ⟨none, IMAGE_MAX_BYTES⟩ (fun _ => true) c5_bytes).2.1
        = [] ∧
    (BlockDecoder.decode_block ⟨none, IMAGE_MAX_BYTES⟩ (fun _ => true) c5_bytes).2.2
        = DecodeOutcome.panicked ∧
    (BlockHeader.check_block_index (parse_block c5_bytes).header (fun _ => true)).1
        = [BlockDecoderError.InvalidBlockIndex 4 3] := by
  refine ⟨rfl, rfl, rfl⟩

/-- Events that `image()` should emit according to the spec: the least
unwritten block index when one exists, then a `ChecksumMismatch` exactly
when the wrapping 32-bit sum of `image[0 .. length]` differs from the
recorded checksum. -/
def image_events_spec (st : BlockDecoderState) : List BlockDecoderError :=
  (match (List.range st.header.block_count).find? (fun i => !st.blocks_done.get i) with
   | some n => [BlockDecoderError.MissingBlock n]
   | none => []) ++
  (if checksum st.image_slice ≠ st.header.checksum then
    [BlockDecoderError.ChecksumMismatch (checksum st.image_slice) st.header.checksum]
  else [])

/-- Invariants of a reassembly state, as established by
`BlockDecoderState::new` for a header that passed `check_len`. -/
def BlockDecoderStateWF (st : BlockDecoderState) : Prop :=
  BoolArrayWF st.blocks_done ∧ st.blocks_done.len = st.header.block_count ∧
  st.header.block_count < 65536 ∧
  st.header.length ≤ st.image.length

instance (st : BlockDecoderState) : Decidable (BlockDecoderStateWF st) := by
  unfold BlockDecoderStateWF
  infer_instance

/-- Invariant of a decoder: its state, when present, is well formed. -/
def BlockDecoderWF (d : BlockDecoder) : Prop :=
  ∀ st, d.state = some st → BlockDecoderStateWF st

theorem first_missing_block_eq (st : BlockDecoderState)
    (hba : BoolArrayWF st.blocks_done)
    (hlen : st.blocks_done.len = st.header.block_count)
    (hbc : st.header.block_count < 65536) :
    st.first_missing_block =
      (List.range st.header.block_count).find? (fun i => !st.blocks_done.get i) := by
  unfold BlockDecoderState.first_missing_block
  rw [first_false_eq_range_find? _ hba, hlen]
  cases hff : (List.range st.header.block_count).find? (fun i => !st.blocks_done.get i) with
  | none => rfl
  | some n =>
    have hn : n < st.header.block_count :=
      List.mem_range.mp (List.mem_of_find?_eq_some hff)
    simp [Nat.mod_eq_of_lt (by omega : n < 65536)]

/-- C7: with a handler that always continues, `image()` emits exactly
`MissingBlock 0` and returns an empty slice when no block was ever
accepted; otherwise it emits `MissingBlock` for the least unwritten index
only (when one exists), emits `ChecksumMismatch` iff the wrapping 32-bit
sum of `image[0 .. length]` differs from the recorded checksum, and in
every case returns `image[0 .. length]`. -/
theorem image_correct (d : BlockDecoder) (hWF : BlockDecoderWF d) :
    d.image (fun _ => true) =
      match d.state with
      | none => ([BlockDecoderError.MissingBlock 0], ImageResult.ok [])
      | some st => (image_events_spec st, ImageResult.ok st.image_slice) := by
  cases hst : d.state with
  | none => simp [BlockDecoder.image, hst]
  | some st =>
    obtain ⟨hba, hlen, hbc, _⟩ := hWF st hst
    simp only [BlockDecoder.image, hst]
    rw [first_missing_block_eq st hba hlen hbc]
    unfold image_events_spec
    cases hff : (List.range st.header.block_count).find? (fun i => !st.blocks_done.get i) with
    | none =>
      by_cases hsum : checksum st.image_slice ≠ st.header.checksum
      · simp [hsum]
      · simp [hsum]
    | some n =>
      by_cases hsum : checksum st.image_slice ≠ st.header.checksum
      · simp [hsum]
      · simp [hsum]

/-- Witness for C7 on a one-block state whose single block was written and
whose checksum matches. -/
theorem image_correct_witness :
    BlockDecoder.image
        ⟨some ⟨⟨0, 0, 5, 1, 0⟩, ⟨[1], 1⟩, List.replicate 256 0⟩, 2097152⟩
        (fun _ => true)
      = ([], ImageResult.ok (List.replicate 5 0)) := by
  have h := image_correct
    ⟨some ⟨⟨0, 0, 5, 1, 0⟩, ⟨[1], 1⟩, List.replicate 256 0⟩, 2097152⟩
    (fun st hst => by
      injection hst with h1
      exact h1 ▸ (by decide : BlockDecoderStateWF ⟨⟨0, 0, 5, 1, 0⟩, ⟨[1], 1⟩,
        List.replicate 256 0⟩))
  rw [h]
  rfl

/-! ## SysEx detector (src/sysex.rs)

The constants below are verbatim from the source (lines 20 and 21), where
`SYSEX_BEGIN` is `0xF7` and `SYSEX_END` is `0xF0`.  The handler is modelled
as a function returning the continue signal; emitted events are returned in
order. -/

def SYSEX_BEGIN : Nat := 0xF7

def SYSEX_END : Nat := 0xF0

/-- Internal state of `SysExDetector`. -/
inductive SysExState where
  | Initial
  | SysExData
  | SkippingMessage
deriving DecidableEq

/-- Conditions that cause input bytes to be skipped. -/
inductive SkipReason where
  | NotSysEx
  | MismatchedId
  | Overflow
  | Underflow
  | UnexpectedByte
  | UnexpectedEof
deriving DecidableEq

/-- Events reported to a `SysExHandler` (`on_message` / `on_skip`). -/
inductive SysExEvent where
  | message (pos : Nat) (msg : List Nat)
  | skip (pos len : Nat) (reason : SkipReason)
deriving DecidableEq

/-- Handler for detector events; `true` continues, `false` stops. -/
def SysExHandler := SysExEvent → Bool

/-- Detector state: scan state, event start offset, stream position, current
message length, capacity, and the message buffer (`cap` zero bytes at
construction). -/
structure SysExDetector where
  state : SysExState
  start : Nat
  pos : Nat
  len : Nat
  cap : Nat
  buf : List Nat
deriving DecidableEq

/-- Embedding of `SysExDetector::new`. -/
def SysExDetector.new (cap : Nat) : SysExDetector :=
  { state := SysExState.Initial, start := 0, pos := 0, len := 0, cap := cap,
    buf := List.replicate cap 0 }

/-- Loop of `skip_non_sysex`: skip bytes until `SYSEX_BEGIN` is found; on a
hit, report the skipped region (if nonempty) and enter `SysExData` with the
begin byte considered consumed in the stream position but not in the
returned count. -/
def skip_non_sysex_go (d : SysExDetector) (h : SysExHandler) :
    List Nat → Nat → Nat → List SysExEvent × Bool × Nat × SysExDetector
  | [], cnt, pos => ([], true, cnt, { d with pos := pos })
  | byte :: rest, cnt, pos =>
    if byte = SYSEX_BEGIN then
      let ev : List SysExEvent × Bool :=
        if pos - d.start = 0 then ([], true)
        else
          let e := SysExEvent.skip d.start (pos - d.start) SkipReason.NotSysEx
          ([e], h e)
      (ev.1, ev.2, cnt,
        { d with
            state := SysExState.SysExData
            start := pos
            pos := pos + 1
            len := 1 })
    else skip_non_sysex_go d h rest (cnt + 1) (pos + 1)

/-- Embedding of `SysExDetector::skip_non_sysex` on a chunk, returning the emitted
events, the continue flag, the consumed count, and the updated detector. -/
def SysExDetector.skip_non_sysex (d : SysExDetector) (h : SysExHandler)
    (bytes : List Nat) : List SysExEvent × Bool × Nat × SysExDetector :=
  skip_non_sysex_go d h bytes 0 d.pos

/-- Loop of `accumulate_data`: data bytes are stored at `buf[len]` with no
capacity check (`none` models the out-of-bounds panic when `len` reaches the
buffer length); `F0` reports the region and restarts a message; `F7` is
stored, included in the message, and closes it; `F8..FF` are ignored; other
status bytes report the region and return to `Initial`. -/
def accumulate_data_go (d : SysExDetector) (h : SysExHandler) :
    List Nat → Nat → Nat → List Nat →
    Option (List SysExEvent × Bool × Nat × SysExDetector)
  | [], cnt, len, buf =>
    some ([], true, cnt, { d with pos := d.pos + cnt, len := len, buf := buf })
  | byte :: rest, cnt, len, buf =>
    if byte ≤ 0x7F then
      if len < buf.length then
        accumulate_data_go d h rest (cnt + 1) (len + 1) (buf.set len byte)
      else none
    else if byte = 0xF0 then
      let e := SysExEvent.skip d.start cnt SkipReason.UnexpectedByte
      some ([e], h e, cnt,
        { d with
            state := SysExState.SysExData
            pos := d.pos + cnt
            len := 1
            buf := buf })
    else if byte = 0xF7 then
      if len < buf.length then
        let buf1 := buf.set len byte
        let e := SysExEvent.message d.start (buf1.take (len + 1))
        some ([e], h e, cnt + 1,
          { d with
              state := SysExState.Initial
              start := d.pos + (len + 1)
              pos := d.pos + (len + 1)
              len := 0
              buf := buf1 })
      else none
    else if 0xF8 ≤ byte then
      accumulate_data_go d h rest (cnt + 1) len buf
    else
      let e := SysExEvent.skip d.start cnt SkipReason.UnexpectedByte
      some ([e], h e, cnt,
        { d with
            state := SysExState.Initial
            pos := d.pos + cnt
            len := 0
            buf := buf })

/-- Embedding of `SysExDetector::accumulate_data` on a chunk; `none` is the panic from an
out-of-bounds buffer write. -/
def SysExDetector.accumulate_data (d : SysExDetector) (h : SysExHandler)
    (bytes : List Nat) :
    Option (List SysExEvent × Bool × Nat × SysExDetector) :=
  accumulate_data_go d h bytes 0 d.len d.buf

/-- Result of `consume`: normal completion with the continue flag, a panic
(out-of-bounds write or the `SkippingMessage` stub), or exhausted fuel (the
source loop need not terminate). -/
inductive ConsumeResult where
  | done (events : List SysExEvent) (ok : Bool) (d : SysExDetector)
  | panicked (events : List SysExEvent)
  | fuelOut
deriving DecidableEq

/-- Loop of `SysExDetector::consume`: dispatch on the state, stop early when
the handler said stop, drop the consumed bytes and continue. -/
def consume_go (h : SysExHandler) :
    Nat → SysExDetector → List Nat → List SysExEvent → ConsumeResult
  | 0, _, _, _ => ConsumeResult.fuelOut
  | fuel + 1, d, bytes, acc =>
    if bytes.isEmpty then ConsumeResult.done acc true d
    else
      match d.state with
      | SysExState.Initial =>
        let r := d.skip_non_sysex h bytes
        if r.2.1 = false then ConsumeResult.done (acc ++ r.1) false r.2.2.2
        else consume_go h fuel r.2.2.2 (bytes.drop r.2.2.1) (acc ++ r.1)
      | SysExState.SysExData =>
        match d.accumulate_data h bytes with
        | none => ConsumeResult.panicked acc
        | some r =>
          if r.2.1 = false then ConsumeResult.done (acc ++ r.1) false r.2.2.2
          else consume_go h fuel r.2.2.2 (bytes.drop r.2.2.1) (acc ++ r.1)
      | SysExState.SkippingMessage => ConsumeResult.panicked acc

/-- Embedding of `SysExDetector::consume`, fueled. -/
def SysExDetector.consume (d : SysExDetector) (h : SysExHandler) (fuel : Nat)
    (bytes : List Nat) : ConsumeResult :=
  consume_go h fuel d bytes []

/-- C1 evaluation: in the `Initial` (Outside) state the detector does not
begin a message at byte 0xF0 — it only extends the skip region — while byte
0xF7 (the source's `SYSEX_BEGIN` constant) does begin one. -/
theorem skip_non_sysex_f0_vs_f7 :
    ((SysExDetector.new 10).skip_non_sysex (fun _ => true) [0xF0]).2.2.2.state
        = SysExState.Initial ∧
    ((SysExDetector.new 10).skip_non_sysex (fun _ => true) [0xF0]).2.2.2.pos = 1 ∧
    ((SysExDetector.new 10).skip_non_sysex (fun _ => true) [0xF7]).2.2.2.state
        = SysExState.SysExData := by
  refine ⟨rfl, rfl, rfl⟩

/-- C2 evaluation: with capacity 2, entering a message (the handler stops at
the skip event, leaving the detector mid-message) and then feeding two data
bytes indexes the buffer out of bounds — the data bytes beyond `cap` are
neither counted nor dropped; the write panics and no `Overflow` is ever
emitted. -/
theorem accumulate_data_overflow_panics :
    (SysExDetector.new 2).consume (fun _ => false) 10 [0x01, 0xF7]
        = ConsumeResult.done [SysExEvent.skip 0 1 SkipReason.NotSysEx] false
            ⟨SysExState.SysExData, 1, 2, 1, 2, [0, 0]⟩ ∧
    SysExDetector.consume ⟨SysExState.SysExData, 1, 2, 1, 2, [0, 0]⟩
        (fun _ => true) 10 [0x01, 0x02]
        = ConsumeResult.panicked [] := by
  refine ⟨rfl, rfl⟩

/-- C3 evaluation: scenario S3's input `F0 6D 73 67 F7` with capacity 10
does not produce `Message{offset 0, payload "msg"}`; the code reports the
first four bytes as a non-SysEx skip and then a message at offset 4 whose
payload is a stale buffer byte followed by the 0xF7 terminator. -/
theorem consume_s3_diverges :
    (SysExDetector.new 10).consume (fun _ => true) 10
        [0xF0, 0x6D, 0x73, 0x67, 0xF7]
      = ConsumeResult.done
          [SysExEvent.skip 0 4 SkipReason.NotSysEx,
            SysExEvent.message 4 [0x00, 0xF7]]
          true
          ⟨SysExState.Initial, 7, 7, 0, 10, [0, 0xF7, 0, 0, 0, 0, 0, 0, 0, 0]⟩ := by
  rfl
